import Mathlib

/-!
Shallow embedding of the vet_cashflow aggregation-and-reporting core
(`src/models.py`, `src/app.py`) and proofs of the specification claims.

Conventions of the embedding:
* Currency amounts (`monto`, `apertura_caja`, `cierre_caja`) are `Nat`:
  the forms (`forms.py`) validate `NumberRange(min=0)` and the spec fixes
  `amount ≥ 0`.
* Python `dict`s with string keys are association lists `List (String × _)`
  in insertion order; `tot[k] += v` on a missing key raises `KeyError`,
  modelled by an `Option` result.
* Nullable DB text columns (`Entry.tutor`, `Entry.mascota`) are
  `Option String`; SQL `coalesce(x, "")` is `Option.getD x ""`.
* SQLAlchemy queries are modelled over the table contents as a
  `List Day` (each element one stored row, in storage order); `GROUP BY`
  keys are taken in order of first appearance.
* Python `int(a / b)` on non-negative integers is truncating division,
  modelled by `Nat` division (`a / b`, which is `0` when `b = 0`).
-/

namespace VetCash

/-- A calendar date `(year, month, day)`; `Day.fecha` in `models.py`.
Dates compare lexicographically. -/
structure Date where
  year : Nat
  month : Nat
  day : Nat
deriving Repr, DecidableEq

/-- `date` comparison `a ≤ b` (lexicographic on year, month, day),
as used by `Day.fecha.between(month_start, month_end)`. -/
def dateLe (a b : Date) : Bool :=
  decide (a.year < b.year) ||
    (decide (a.year = b.year) &&
      (decide (a.month < b.month) ||
        (decide (a.month = b.month) && decide (a.day ≤ b.day))))

/-- One row of the `entries` table (`models.py`, class `Entry`).
`tutor`/`mascota` are nullable text columns, hence `Option String`. -/
structure Entry where
  categoria : String
  descripcion : String
  monto : Nat
  tipo_pago : String
  tutor : Option String
  mascota : Option String
deriving Repr, DecidableEq

/-- One row of the `days` table (`models.py`, class `Day`) together with
its `entries` relationship, in creation (`id`) order.
`apertura_caja`/`cierre_caja` are nullable integer columns. -/
structure Day where
  fecha : Date
  doctor : String
  apertura_caja : Option Nat
  cierre_caja : Option Nat
  entries : List Entry
deriving Repr, DecidableEq

/-- Sum of the `monto` fields of a list of entries. -/
def sumMonto (es : List Entry) : Nat :=
  (es.map Entry.monto).sum

/-- The three fixed payment-method keys, in the insertion order of the
dict literal in `Day.total_por_pago`. -/
def pagoKeys : List String := ["DEBITO/CREDITO", "EFECTIVO", "TRANSFERENCIA"]

/-- The five fixed category keys, in declaration order of `Category`
(`models.py`). -/
def catKeys : List String := ["ATENCION", "PROCEDIMIENTO", "FARMACIA", "EXAMEN", "PELUQUERIA"]

/-- Python `tot[k] += v` on a string-keyed dict: `none` models the
`KeyError` raised when `k` is not among the dict's keys. -/
def dictIncr (k : String) (v : Nat) : List (String × Nat) → Option (List (String × Nat))
  | [] => none
  | (k', v') :: rest =>
    if k' = k then some ((k', v' + v) :: rest)
    else (dictIncr k v rest).map (fun t => (k', v') :: t)

/-- Total variant of `dictIncr` (leaves the dict unchanged on a missing
key); used to describe the successful runs. -/
def dictBump (k : String) (v : Nat) : List (String × Nat) → List (String × Nat)
  | [] => []
  | (k', v') :: rest =>
    if k' = k then (k', v' + v) :: rest
    else (k', v') :: dictBump k v rest

/-- The zero-filled dict `{k: 0 for k in ks}`. -/
def zeroDict (ks : List String) : List (String × Nat) :=
  ks.map (fun k => (k, 0))

/-- `Day.total_por_pago` (`models.py` lines 30–34): start from the
zero-filled three-key dict and do `tot[e.tipo_pago] += e.monto` for each
entry; an unrecognized `tipo_pago` raises `KeyError` (`none`). -/
def Day.total_por_pago (d : Day) : Option (List (String × Nat)) :=
  d.entries.foldlM (fun tot e => dictIncr e.tipo_pago e.monto tot) (zeroDict pagoKeys)

/-- `Day.total_por_categoria` (`models.py` lines 36–40): same pattern
over the five category keys. -/
def Day.total_por_categoria (d : Day) : Option (List (String × Nat)) :=
  d.entries.foldlM (fun tot e => dictIncr e.categoria e.monto tot) (zeroDict catKeys)

/-- `Day.total_dia` (`models.py` lines 42–43): sum of the day's entry
amounts. -/
def Day.total_dia (d : Day) : Nat :=
  sumMonto d.entries

/-- The `day_close` handler's mutation (`app.py` lines 430–442):
`day.cierre_caja = (day.apertura_caja or 0) + day.total_dia()`. -/
def day_close (d : Day) : Day :=
  { d with cierre_caja := some (d.apertura_caja.getD 0 + d.total_dia) }

/-! ### Monthly aggregation (`get_month_stats`, `app.py` lines 140–232) -/

/-- Gregorian leap-year test (`calendar.isleap`). -/
def isLeap (y : Nat) : Bool :=
  decide (y % 4 = 0) && (decide (y % 100 ≠ 0) || decide (y % 400 = 0))

/-- Number of days of month `m` of year `y`
(the second component of `calendar.monthrange`). -/
def daysInMonth (y m : Nat) : Nat :=
  if m = 2 then (if isLeap y then 29 else 28)
  else if m = 4 ∨ m = 6 ∨ m = 9 ∨ m = 11 then 30
  else 31

/-- The inputs on which `get_month_stats` does not raise:
`calendar.monthrange` raises `IllegalMonthError` for a month outside
1–12, and `date(year, month, …)` raises `ValueError` for a year outside
1–9999. -/
def validYM (year month : Nat) : Bool :=
  decide (1 ≤ month) && decide (month ≤ 12) && decide (1 ≤ year) && decide (year ≤ 9999)

/-- The rows of the `days` table satisfying
`Day.fecha.between(lo, hi)` (inclusive), in storage order. -/
def daysInRange (dbDays : List Day) (lo hi : Date) : List Day :=
  dbDays.filter (fun d => dateLe lo d.fecha && dateLe d.fecha hi)

/-- All entries of a list of days, i.e. the `Entry ⋈ Day` join restricted
to those days, in storage order. -/
def allEntries : List Day → List Entry
  | [] => []
  | d :: rest => d.entries ++ allEntries rest

/-- The `(Day.fecha, Entry.monto)` projection of the `Entry ⋈ Day` join. -/
def joinedRows : List Day → List (Date × Nat)
  | [] => []
  | d :: rest => d.entries.map (fun e => (d.fecha, e.monto)) ++ joinedRows rest

/-- Fuel-driven worker for `distinctFirsts`; the fuel only certifies
termination and never runs out when it starts at the list length. -/
def distinctFirstsAux {α : Type} [DecidableEq α] : Nat → List α → List α
  | _, [] => []
  | 0, _ :: _ => []
  | n + 1, f :: rest => f :: distinctFirstsAux n (rest.filter (fun g => g ≠ f))

/-- Distinct values of a list, keeping the order of first appearance
(the `GROUP BY` key order of the embedding). -/
def distinctFirsts {α : Type} [DecidableEq α] (l : List α) : List α :=
  distinctFirstsAux l.length l

/-- The `sumas_por_dia` query (`app.py` lines 190–197): per-`fecha` sums
of entry amounts, one pair per distinct date having at least one entry. -/
def sumasPorDia (scope : List Day) : List (Date × Nat) :=
  (distinctFirsts ((joinedRows scope).map Prod.fst)).map
    (fun f => (f, (((joinedRows scope).filter (fun r => r.1 = f)).map Prod.snd).sum))

/-- Insert a `(date, sum)` pair into a list sorted descending by sum,
before the first element whose sum is `≤` its own (so equal sums keep
the original relative order, as Python's stable `sorted(..., reverse=True)`). -/
def insertDesc (x : Date × Nat) : List (Date × Nat) → List (Date × Nat)
  | [] => [x]
  | y :: ys => if y.2 ≤ x.2 then x :: y :: ys else y :: insertDesc x ys

/-- Stable descending sort by the sum component: the embedding of
`sorted(sumas_por_dia, key=lambda x: x[1], reverse=True)`. -/
def sortDesc : List (Date × Nat) → List (Date × Nat)
  | [] => []
  | x :: xs => insertDesc x (sortDesc xs)

/-- The dict returned by `get_month_stats` (`app.py` lines 224–232). -/
structure Stats where
  month_start : Date
  month_end : Date
  tot_por_pago : List (String × Nat)
  tot_por_cat : List (String × Nat)
  total_general : Nat
  tx_count : Nat
  dias_con_mov : Nat
  promedio_diario : Nat
  sumas_por_dia : List (Date × Nat)
  top5 : List (Date × Nat)
  peak_day : Option Date
  peak_total : Nat
  ticket_promedio : Nat
  ticket_promedio_cat : List (String × Nat)
  part_pago : List (String × ℚ)
  part_cat : List (String × ℚ)
deriving Repr, DecidableEq

/-- Sum of the amounts of the in-scope entries with payment method (or
category, by choice of projection) equal to `k`; the per-group sum of
the `GROUP BY` queries, `0` for a key with no group. -/
def groupSum (proj : Entry → String) (k : String) (es : List Entry) : Nat :=
  sumMonto (es.filter (fun e => proj e = k))

/-- Count of in-scope entries whose `proj` equals `k`
(the `cats_count_raw` query). -/
def groupCount (proj : Entry → String) (k : String) (es : List Entry) : Nat :=
  (es.filter (fun e => proj e = k)).length

/-- The body of `get_month_stats` (`app.py` lines 146–232) as a function
of the in-scope days (every query there filters by
`Day.fecha.between(month_start, month_end)`). -/
def monthStatsOfScope (scope : List Day) (month_start month_end : Date) : Stats :=
  let es := allEntries scope
  let tot_por_pago := pagoKeys.map (fun k => (k, groupSum Entry.tipo_pago k es))
  let tot_por_cat := catKeys.map (fun k => (k, groupSum Entry.categoria k es))
  let total_general := (tot_por_pago.map Prod.snd).sum
  let tx_count := es.length
  let dias_con_mov := (scope.filter (fun d => ¬ d.entries.isEmpty)).length
  let promedio_diario := if dias_con_mov ≠ 0 then total_general / dias_con_mov else 0
  let sumas := sumasPorDia scope
  let top5 := (sortDesc sumas).take 5
  let peak_day := top5.head?.map Prod.fst
  let peak_total := (top5.head?.map Prod.snd).getD 0
  let ticket_promedio := if tx_count ≠ 0 then total_general / tx_count else 0
  let ticket_promedio_cat := catKeys.map (fun c =>
    (c, if groupCount Entry.categoria c es ≠ 0 then
          groupSum Entry.categoria c es / groupCount Entry.categoria c es
        else 0))
  let part_pago := tot_por_pago.map (fun kv =>
    (kv.1, if total_general ≠ 0 then (100 * kv.2 : ℚ) / total_general else 0))
  let part_cat := catKeys.map (fun c =>
    (c, if total_general ≠ 0 then (100 * groupSum Entry.categoria c es : ℚ) / total_general else 0))
  { month_start := month_start
    month_end := month_end
    tot_por_pago := tot_por_pago
    tot_por_cat := tot_por_cat
    total_general := total_general
    tx_count := tx_count
    dias_con_mov := dias_con_mov
    promedio_diario := promedio_diario
    sumas_por_dia := sumas
    top5 := top5
    peak_day := peak_day
    peak_total := peak_total
    ticket_promedio := ticket_promedio
    ticket_promedio_cat := ticket_promedio_cat
    part_pago := part_pago
    part_cat := part_cat }

/-- `get_month_stats(year, month)` (`app.py` lines 140–232) over the
stored days; `none` models the exception raised for a month outside
1–12 (or a year outside 1–9999). -/
def get_month_stats (dbDays : List Day) (year month : Nat) : Option Stats :=
  if validYM year month then
    let month_start : Date := ⟨year, month, 1⟩
    let month_end : Date := ⟨year, month, daysInMonth year month⟩
    some (monthStatsOfScope (daysInRange dbDays month_start month_end) month_start month_end)
  else none

/-! ### Patient grouping (`day_detail`, `app.py` lines 386–401) -/

/-- One element of the `patient_groups` list built in `day_detail`:
coalesced display labels, entry count and amount sum of the group. -/
structure PatientGroup where
  tutor : String
  mascota : String
  count : Nat
  total : Nat
deriving Repr, DecidableEq

/-- The `groups` query plus the `patient_groups` comprehension
(`app.py` lines 386–401): the day's entries are grouped by the raw
`(Entry.tutor, Entry.mascota)` column pair (`GROUP BY Entry.tutor,
Entry.mascota` — `NULL` groups with `NULL`, apart from `""`); only the
selected labels are coalesced to `""`. -/
def patient_groups (d : Day) : List PatientGroup :=
  (distinctFirsts (d.entries.map (fun e => (e.tutor, e.mascota)))).map
    (fun k =>
      let ges := d.entries.filter (fun e => (e.tutor, e.mascota) = k)
      { tutor := k.1.getD "", mascota := k.2.getD "",
        count := ges.length, total := sumMonto ges })

/-- Modelled from the spec: grouping by the pair (owner, patient-name)
"both normalized to empty string when absent/null so that null and `\x22\x22`
group together" — normalization applied BEFORE grouping. Used only to
compare the code's grouping against the spec's words. -/
def patient_groups_spec (d : Day) : List PatientGroup :=
  (distinctFirsts (d.entries.map (fun e => (e.tutor.getD "", e.mascota.getD "")))).map
    (fun k =>
      let ges := d.entries.filter (fun e => (e.tutor.getD "", e.mascota.getD "") = k)
      { tutor := k.1, mascota := k.2, count := ges.length, total := sumMonto ges })

/-! ### Formatters (`clp`, `pct`, `app.py` lines 126–138) and the inline
PDF money formatting (`app.py` lines 479, 617) -/

/-- The decimal digit character of `d` (`0 ≤ d < 10`). -/
def digitChar (d : Nat) : Char := Char.ofNat (48 + d)

/-- Decimal digits of `n`, least-significant first. -/
def natDigitsRev (n : Nat) : List Char :=
  if n < 10 then [digitChar n]
  else digitChar (n % 10) :: natDigitsRev (n / 10)
termination_by n
decreasing_by
  exact Nat.div_lt_self (Nat.pos_of_ne_zero (by omega)) (by omega)

/-- Insert `sep` after every three digits of a least-significant-first
digit list, when more digits remain: the grouping of Python's `{:,}`
format (and of the claim's "grouped in threes"). -/
def group3 (sep : Char) : List Char → List Char
  | a :: b :: c :: d :: rest => a :: b :: c :: sep :: group3 sep (d :: rest)
  | l => l

/-- Python `f"{n:,}"` for a non-negative integer: decimal digits with a
comma every three, counted from the right. -/
def commaFormat (n : Nat) : String :=
  ⟨(group3 ',' (natDigitsRev n)).reverse⟩

/-- Python `.replace(",", ".")`. -/
def replaceCommaDot (s : String) : String :=
  ⟨s.data.map (fun c => if c = ',' then '.' else c)⟩

/-- The `clp` template filter (`app.py` lines 126–131) on its integer
domain: `f"$ {int(n):,}".replace(",", ".")`. -/
def clp (n : Nat) : String :=
  "$ " ++ replaceCommaDot (commaFormat n)

/-- The money formatting inlined in the PDF renderers
(`app.py` lines 479, 617): `f"$ {int(val):,}".replace(",", ".")`. -/
def pdf_money (v : Nat) : String :=
  "$ " ++ replaceCommaDot (commaFormat v)

/-- Digits of `n` grouped in threes separated by `.` — the claim's
description of the currency body, built directly with `.` separators. -/
def dotFormat (n : Nat) : String :=
  ⟨(group3 '.' (natDigitsRev n)).reverse⟩

/-- Round a rational to the nearest integer, ties to even: the rounding
of `f"{x:.1f}"` applied to the exact value (the embedding works over
exact rationals rather than binary doubles). -/
def roundHalfEven (q : ℚ) : ℤ :=
  let f := ⌊q⌋
  let r := q - f
  if r < 1/2 then f
  else if 1/2 < r then f + 1
  else if f % 2 = 0 then f else f + 1

/-- The `pct` template filter (`app.py` lines 133–138) on its numeric
domain: the value rendered with exactly one decimal digit (nearest
tenth, ties to even) and a `%` suffix. -/
def pct (q : ℚ) : String :=
  let n := roundHalfEven (10 * q)
  if n < 0 then
    "-" ++ toString ((-n).toNat / 10) ++ "." ++ toString ((-n).toNat % 10) ++ "%"
  else
    toString (n.toNat / 10) ++ "." ++ toString (n.toNat % 10) ++ "%"

/-! ## Theorems -/

/-- C7: for every month input outside 1–12, `get_month_stats` signals an
input-validation failure (it raises, modelled by `none`) rather than
silently clamping the month into range: it does not return a summary
computed for some other month. -/
theorem claim_C7_invalid_month (db : List Day) (year month : Nat)
    (hm : month < 1 ∨ 12 < month) :
    get_month_stats db year month = none := by
  have hv : validYM year month = false := by
    simp only [validYM, Bool.and_eq_false_iff, decide_eq_false_iff_not, not_le]
    rcases hm with h | h
    · left; left; left; omega
    · left; left; right; omega
  simp [get_month_stats, hv]

/-- Witness for C7 at the concrete month 13. -/
theorem claim_C7_witness :
    (13 < 1 ∨ 12 < 13) ∧ get_month_stats [] 2024 13 = none :=
  ⟨Or.inr (by omega), claim_C7_invalid_month [] 2024 13 (Or.inr (by omega))⟩

/-- C8: `day_close` sets `cierre_caja` to `apertura_caja` (coalesced to
0) plus the sum of the day's entry amounts, unconditionally overwriting
any previously stored closing balance, and leaves the date, doctor,
opening balance and all entries unchanged. -/
theorem claim_C8_day_close (d : Day) (c : Option Nat) :
    day_close d = { d with cierre_caja := some (d.apertura_caja.getD 0 + sumMonto d.entries) }
    ∧ day_close { d with cierre_caja := c } = day_close d
    ∧ (day_close d).fecha = d.fecha
    ∧ (day_close d).doctor = d.doctor
    ∧ (day_close d).apertura_caja = d.apertura_caja
    ∧ (day_close d).entries = d.entries :=
  ⟨rfl, rfl, rfl, rfl, rfl, rfl⟩

lemma allEntries_eq_nil {l : List Day} (h : ∀ d ∈ l, d.entries = []) :
    allEntries l = [] := by
  induction l with
  | nil => rfl
  | cons d rest ih =>
    simp only [allEntries, h d (by simp), List.nil_append]
    exact ih (fun d' hd' => h d' (by simp [hd']))

lemma joinedRows_eq_nil {l : List Day} (h : ∀ d ∈ l, d.entries = []) :
    joinedRows l = [] := by
  induction l with
  | nil => rfl
  | cons d rest ih =>
    simp only [joinedRows, h d (by simp), List.map_nil, List.nil_append]
    exact ih (fun d' hd' => h d' (by simp [hd']))

lemma sum_map_zero {α : Type} (l : List α) : (l.map (fun _ => (0 : Nat))).sum = 0 := by
  induction l <;> simp [*]

/-- `monthStatsOfScope` on a scope with no entries is the zero-filled
record the spec prescribes. -/
lemma monthStatsOfScope_no_entries (scope : List Day) (lo hi : Date)
    (h : ∀ d ∈ scope, d.entries = []) :
    monthStatsOfScope scope lo hi =
      { month_start := lo, month_end := hi,
        tot_por_pago := pagoKeys.map (fun k => (k, 0)),
        tot_por_cat := catKeys.map (fun k => (k, 0)),
        total_general := 0, tx_count := 0, dias_con_mov := 0,
        promedio_diario := 0, sumas_por_dia := [], top5 := [],
        peak_day := none, peak_total := 0, ticket_promedio := 0,
        ticket_promedio_cat := catKeys.map (fun k => (k, 0)),
        part_pago := pagoKeys.map (fun k => (k, (0 : ℚ))),
        part_cat := catKeys.map (fun k => (k, (0 : ℚ))) } := by
  have hes := allEntries_eq_nil h
  have hjr := joinedRows_eq_nil h
  have hfil : scope.filter (fun d => ¬ d.entries.isEmpty) = [] := by
    rw [List.filter_eq_nil_iff]
    intro d hd
    simp [h d hd]
  simp [monthStatsOfScope, hes, hjr, hfil, sumasPorDia, groupSum, groupCount,
    sumMonto, distinctFirsts, distinctFirstsAux, sortDesc, List.map_map,
    Function.comp, sum_map_zero]
  refine ⟨by decide, h, fun x hx hne => absurd (h x hx) hne⟩

/-- C2: for every year/month (in the callable range) with zero entries
in scope, `get_month_stats` raises no exception and returns total 0,
0 days with movement, both averages 0, empty top-5, no peak day, peak
total 0, and every share percentage (by payment and by category) 0. -/
theorem claim_C2_empty_month_zero (db : List Day) (year month : Nat)
    (hv : validYM year month = true)
    (hemp : ∀ d ∈ daysInRange db ⟨year, month, 1⟩ ⟨year, month, daysInMonth year month⟩,
      d.entries = []) :
    ∃ st, get_month_stats db year month = some st ∧
      st.total_general = 0 ∧ st.dias_con_mov = 0 ∧ st.promedio_diario = 0 ∧
      st.ticket_promedio = 0 ∧ st.top5 = [] ∧ st.peak_day = none ∧ st.peak_total = 0 ∧
      (∀ kv ∈ st.part_pago, kv.2 = 0) ∧ (∀ kv ∈ st.part_cat, kv.2 = 0) := by
  refine ⟨_, by rw [get_month_stats, if_pos hv], ?_⟩
  rw [monthStatsOfScope_no_entries _ _ _ hemp]
  refine ⟨rfl, rfl, rfl, rfl, rfl, rfl, rfl, ?_, ?_⟩ <;>
    · intro kv hkv
      simp only [List.mem_map] at hkv
      obtain ⟨k, _, rfl⟩ := hkv
      rfl

/-- Witness for C2 at the empty store and May 2024. -/
theorem claim_C2_witness :
    validYM 2024 5 = true ∧
    (∀ d ∈ daysInRange [] ⟨2024, 5, 1⟩ ⟨2024, 5, daysInMonth 2024 5⟩, d.entries = []) ∧
    (∃ st, get_month_stats [] 2024 5 = some st ∧
      st.total_general = 0 ∧ st.dias_con_mov = 0 ∧ st.promedio_diario = 0 ∧
      st.ticket_promedio = 0 ∧ st.top5 = [] ∧ st.peak_day = none ∧ st.peak_total = 0 ∧
      (∀ kv ∈ st.part_pago, kv.2 = 0) ∧ (∀ kv ∈ st.part_cat, kv.2 = 0)) :=
  ⟨by decide, fun d hd => absurd hd (List.not_mem_nil d),
    claim_C2_empty_month_zero [] 2024 5 (by decide)
      (fun d hd => absurd hd (List.not_mem_nil d))⟩

lemma map_eq_self_of {α : Type} {f : α → α} {l : List α} (h : ∀ a ∈ l, f a = a) :
    l.map f = l := by
  induction l with
  | nil => rfl
  | cons a rest ih => simp [h a (by simp), ih (fun b hb => h b (by simp [hb]))]

lemma dictIncr_eq_bump {k : String} {v : Nat} {t : List (String × Nat)}
    (hk : k ∈ t.map Prod.fst) : dictIncr k v t = some (dictBump k v t) := by
  induction t with
  | nil => simp at hk
  | cons kv rest ih =>
    obtain ⟨k', v'⟩ := kv
    by_cases h : k' = k
    · simp [dictIncr, dictBump, h]
    · simp only [List.map_cons, List.mem_cons] at hk
      rcases hk with h1 | h2
      · exact absurd h1.symm h
      · simp [dictIncr, dictBump, h, ih h2]

lemma dictBump_keys (k : String) (v : Nat) (t : List (String × Nat)) :
    (dictBump k v t).map Prod.fst = t.map Prod.fst := by
  induction t with
  | nil => rfl
  | cons kv rest ih =>
    obtain ⟨k', v'⟩ := kv
    by_cases h : k' = k <;> simp [dictBump, h, ih]

lemma dictBump_eq_map {k : String} {v : Nat} {t : List (String × Nat)}
    (hnd : (t.map Prod.fst).Nodup) (hk : k ∈ t.map Prod.fst) :
    dictBump k v t = t.map (fun kv => if kv.1 = k then (kv.1, kv.2 + v) else kv) := by
  induction t with
  | nil => rfl
  | cons kv rest ih =>
    obtain ⟨k', v'⟩ := kv
    simp only [List.map_cons, List.nodup_cons, List.mem_cons] at hnd hk
    by_cases h : k' = k
    · subst h
      simp only [dictBump, if_pos rfl, ite_true]
      have : rest.map (fun kv => if kv.1 = k' then (kv.1, kv.2 + v) else kv) = rest := by
        apply map_eq_self_of
        intro kv hkv
        have : kv.1 ≠ k' := by
          intro heq
          exact hnd.1 (heq ▸ List.mem_map_of_mem Prod.fst hkv)
        simp [this]
      simp [this]
    · have hk2 : k ∈ rest.map Prod.fst := by
        rcases hk with h1 | h2
        · exact absurd h1.symm h
        · exact h2
      simp [dictBump, h, ih hnd.2 hk2]

lemma groupSum_cons (proj : Entry → String) (k : String) (e : Entry) (rest : List Entry) :
    groupSum proj k (e :: rest) =
      (if proj e = k then e.monto else 0) + groupSum proj k rest := by
  simp only [groupSum, sumMonto, List.filter_cons]
  split <;> simp_all

lemma foldlM_dictIncr (proj : Entry → String) (es : List Entry) :
    ∀ t : List (String × Nat), (t.map Prod.fst).Nodup →
      (∀ e ∈ es, proj e ∈ t.map Prod.fst) →
      es.foldlM (fun tot e => dictIncr (proj e) e.monto tot) t
        = some (t.map (fun kv => (kv.1, kv.2 + groupSum proj kv.1 es))) := by
  induction es with
  | nil =>
    intro t _ _
    have : t.map (fun kv => (kv.1, kv.2 + groupSum proj kv.1 [])) = t := by
      apply map_eq_self_of
      intro kv _
      simp [groupSum, sumMonto]
    simp [this]
  | cons e rest ih =>
    intro t hnd hcov
    have hmem : proj e ∈ t.map Prod.fst := hcov e (by simp)
    rw [List.foldlM_cons, dictIncr_eq_bump hmem]
    have hkeys := dictBump_keys (proj e) e.monto t
    simp only [Option.bind_eq_bind, Option.some_bind]
    rw [ih (dictBump (proj e) e.monto t) (hkeys ▸ hnd)
        (fun e' he' => hkeys ▸ hcov e' (by simp [he']))]
    congr 1
    rw [dictBump_eq_map hnd hmem, List.map_map]
    congr 1
    funext kv
    by_cases h : kv.1 = proj e
    · simp [Function.comp, h, groupSum_cons, Nat.add_assoc]
    · have : proj e ≠ kv.1 := fun heq => h heq.symm
      simp [Function.comp, h, groupSum_cons, this]

lemma zeroDict_keys (ks : List String) : (zeroDict ks).map Prod.fst = ks := by
  rw [zeroDict, List.map_map]
  exact map_eq_self_of (fun k _ => rfl)

/-- C1 (amended): when every entry's payment method and category belong
to the fixed enumerations, the daily aggregations succeed and return
every fixed key mapped to its sum (0 when absent from the data); an
unrecognized value instead makes the operation fail with a `KeyError`
(see the counterexample). -/
theorem claim_C1_daily_totals (d : Day)
    (hp : ∀ e ∈ d.entries, e.tipo_pago ∈ pagoKeys)
    (hc : ∀ e ∈ d.entries, e.categoria ∈ catKeys) :
    d.total_por_pago
        = some (pagoKeys.map (fun k => (k, groupSum Entry.tipo_pago k d.entries)))
    ∧ d.total_por_categoria
        = some (catKeys.map (fun k => (k, groupSum Entry.categoria k d.entries))) := by
  constructor
  · rw [Day.total_por_pago,
      foldlM_dictIncr Entry.tipo_pago d.entries (zeroDict pagoKeys)
        (by rw [zeroDict_keys]; decide)
        (fun e he => (zeroDict_keys pagoKeys) ▸ hp e he)]
    simp [zeroDict, List.map_map, Function.comp]
  · rw [Day.total_por_categoria,
      foldlM_dictIncr Entry.categoria d.entries (zeroDict catKeys)
        (by rw [zeroDict_keys]; decide)
        (fun e he => (zeroDict_keys catKeys) ▸ hc e he)]
    simp [zeroDict, List.map_map, Function.comp]

/-- Counterexample for C1 as stated: on a day holding one entry with the
out-of-enumeration values `tipo_pago = "CHEQUE"`, `categoria = "OTRA"`,
both daily aggregations fail (`KeyError`, modelled by `none`) instead of
silently dropping the entry. -/
theorem claim_C1_counterexample :
    Day.total_por_pago
        ⟨⟨2024, 5, 10⟩, "", none, none, [⟨"OTRA", "", 5, "CHEQUE", none, none⟩]⟩ = none
    ∧ Day.total_por_categoria
        ⟨⟨2024, 5, 10⟩, "", none, none, [⟨"OTRA", "", 5, "CHEQUE", none, none⟩]⟩ = none :=
  ⟨rfl, rfl⟩

/-- Witness for the amended C1 on a concrete in-enumeration day. -/
theorem claim_C1_witness :
    (∀ e ∈ [Entry.mk "ATENCION" "" 1000 "EFECTIVO" none none], e.tipo_pago ∈ pagoKeys)
    ∧ (∀ e ∈ [Entry.mk "ATENCION" "" 1000 "EFECTIVO" none none], e.categoria ∈ catKeys)
    ∧ (Day.total_por_pago
          ⟨⟨2024, 5, 10⟩, "", none, none, [⟨"ATENCION", "", 1000, "EFECTIVO", none, none⟩]⟩
        = some (pagoKeys.map (fun k => (k, groupSum Entry.tipo_pago k
            [⟨"ATENCION", "", 1000, "EFECTIVO", none, none⟩])))
      ∧ Day.total_por_categoria
          ⟨⟨2024, 5, 10⟩, "", none, none, [⟨"ATENCION", "", 1000, "EFECTIVO", none, none⟩]⟩
        = some (catKeys.map (fun k => (k, groupSum Entry.categoria k
            [⟨"ATENCION", "", 1000, "EFECTIVO", none, none⟩])))) :=
  ⟨by decide, by decide,
    claim_C1_daily_totals
      ⟨⟨2024, 5, 10⟩, "", none, none, [⟨"ATENCION", "", 1000, "EFECTIVO", none, none⟩]⟩
      (by decide) (by decide)⟩

lemma insertDesc_perm (x : Date × Nat) (l : List (Date × Nat)) :
    List.Perm (insertDesc x l) (x :: l) := by
  induction l with
  | nil => exact List.Perm.refl _
  | cons y ys ih =>
    by_cases h : y.2 ≤ x.2
    · simp [insertDesc, h]
    · simp only [insertDesc, if_neg h]
      exact (ih.cons y).trans (List.Perm.swap x y ys)

lemma sortDesc_perm (l : List (Date × Nat)) : List.Perm (sortDesc l) l := by
  induction l with
  | nil => exact List.Perm.refl _
  | cons x xs ih => exact (insertDesc_perm x (sortDesc xs)).trans (ih.cons x)

lemma insertDesc_pairwise {x : Date × Nat} {l : List (Date × Nat)}
    (hl : l.Pairwise (fun a b => b.2 ≤ a.2)) :
    (insertDesc x l).Pairwise (fun a b => b.2 ≤ a.2) := by
  induction l with
  | nil => simp [insertDesc]
  | cons y ys ih =>
    rw [List.pairwise_cons] at hl
    obtain ⟨hy, hys⟩ := hl
    by_cases h : y.2 ≤ x.2
    · rw [insertDesc, if_pos h, List.pairwise_cons]
      refine ⟨?_, List.pairwise_cons.mpr ⟨hy, hys⟩⟩
      intro z hz
      rcases List.mem_cons.mp hz with rfl | hz'
      · exact h
      · exact le_trans (hy z hz') h
    · rw [insertDesc, if_neg h, List.pairwise_cons]
      refine ⟨?_, ih hys⟩
      intro z hz
      rcases List.mem_cons.mp ((insertDesc_perm x ys).mem_iff.mp hz) with rfl | hz'
      · exact le_of_lt (lt_of_not_le h)
      · exact hy z hz'

lemma sortDesc_pairwise (l : List (Date × Nat)) :
    (sortDesc l).Pairwise (fun a b => b.2 ≤ a.2) := by
  induction l with
  | nil => simp [sortDesc]
  | cons x xs ih => exact insertDesc_pairwise ih

lemma insertDesc_filter_key (k : Nat) (x : Date × Nat) (l : List (Date × Nat)) :
    (insertDesc x l).filter (fun p => p.2 = k)
      = if x.2 = k then x :: l.filter (fun p => p.2 = k)
        else l.filter (fun p => p.2 = k) := by
  induction l with
  | nil =>
    by_cases hx : x.2 = k <;> simp [insertDesc, List.filter_cons, hx]
  | cons y ys ih =>
    by_cases h : y.2 ≤ x.2
    · rw [insertDesc, if_pos h]
      by_cases hx : x.2 = k <;> simp [List.filter_cons, hx]
    · rw [insertDesc, if_neg h]
      by_cases hx : x.2 = k
      · have hy : ¬ (y.2 = k) := by
          intro hy
          exact h (by omega)
        simp [List.filter_cons, hy, hx, ih]
      · by_cases hy : y.2 = k <;> simp [List.filter_cons, hy, hx, ih]

lemma sortDesc_filter_key (k : Nat) (l : List (Date × Nat)) :
    (sortDesc l).filter (fun p => p.2 = k) = l.filter (fun p => p.2 = k) := by
  induction l with
  | nil => rfl
  | cons x xs ih =>
    rw [sortDesc, insertDesc_filter_key, ih]
    by_cases hx : x.2 = k <;> simp [List.filter_cons, hx]

/-- C4: `top5` is the 5-element descending-by-sum prefix of the stable
sort of `perDayTotals` (`sumas_por_dia`): length at most 5, sorted
descending, a sub-multiset of `perDayTotals`, ties kept in original
order (the sort is stable: it preserves each equal-sum fiber verbatim);
and `(peak_day, peak_total)` is the head of `top5`, or `(none, 0)` when
it is empty. -/
theorem claim_C4_top5 (db : List Day) (year month : Nat)
    (hv : validYM year month = true) :
    ∃ st, get_month_stats db year month = some st ∧
      st.top5 = (sortDesc st.sumas_por_dia).take 5 ∧
      st.top5.length ≤ 5 ∧
      st.top5.Pairwise (fun a b => b.2 ≤ a.2) ∧
      st.top5.Subperm st.sumas_por_dia ∧
      (∀ k : Nat, (sortDesc st.sumas_por_dia).filter (fun p => p.2 = k)
          = st.sumas_por_dia.filter (fun p => p.2 = k)) ∧
      st.peak_day = st.top5.head?.map Prod.fst ∧
      st.peak_total = (st.top5.head?.map Prod.snd).getD 0 := by
  refine ⟨_, by rw [get_month_stats, if_pos hv], rfl, ?_, ?_, ?_, ?_, rfl, rfl⟩
  · show ((sortDesc (sumasPorDia _)).take 5).length ≤ 5
    rw [List.length_take]
    exact Nat.min_le_left _ _
  · exact List.Pairwise.sublist (List.take_sublist 5 _) (sortDesc_pairwise _)
  · exact ((List.take_sublist 5 _).subperm).trans (sortDesc_perm _).subperm
  · exact fun k => sortDesc_filter_key k _

/-- Witness for C4 at a concrete store and month. -/
theorem claim_C4_witness :
    validYM 2024 5 = true ∧
    (∃ st, get_month_stats
        [⟨⟨2024, 5, 3⟩, "", none, none, [⟨"ATENCION", "", 500, "EFECTIVO", none, none⟩]⟩]
        2024 5 = some st ∧
      st.top5 = (sortDesc st.sumas_por_dia).take 5 ∧
      st.top5.length ≤ 5 ∧
      st.top5.Pairwise (fun a b => b.2 ≤ a.2) ∧
      st.top5.Subperm st.sumas_por_dia ∧
      (∀ k : Nat, (sortDesc st.sumas_por_dia).filter (fun p => p.2 = k)
          = st.sumas_por_dia.filter (fun p => p.2 = k)) ∧
      st.peak_day = st.top5.head?.map Prod.fst ∧
      st.peak_total = (st.top5.head?.map Prod.snd).getD 0) :=
  ⟨by decide,
    claim_C4_top5
      [⟨⟨2024, 5, 3⟩, "", none, none, [⟨"ATENCION", "", 500, "EFECTIVO", none, none⟩]⟩]
      2024 5 (by decide)⟩

/-- C6: the monthly scope is exactly the days dated within
`[first day, last day]` of the month, where the last day is the actual
month length (leap years included): a day record dated outside that
interval contributes nothing to any monthly figure, and February has
29 days in leap years, 28 otherwise. -/
theorem claim_C6_month_scope (db₁ db₂ : List Day) (d : Day) (year month : Nat)
    (hout : dateLe ⟨year, month, 1⟩ d.fecha = false
          ∨ dateLe d.fecha ⟨year, month, daysInMonth year month⟩ = false) :
    get_month_stats (db₁ ++ d :: db₂) year month = get_month_stats (db₁ ++ db₂) year month
    ∧ (∀ db : List Day, validYM year month = true →
        get_month_stats db year month
          = some (monthStatsOfScope
              (db.filter (fun d' => dateLe ⟨year, month, 1⟩ d'.fecha
                  && dateLe d'.fecha ⟨year, month, daysInMonth year month⟩))
              ⟨year, month, 1⟩ ⟨year, month, daysInMonth year month⟩))
    ∧ daysInMonth 2024 2 = 29 ∧ daysInMonth 2023 2 = 28
    ∧ daysInMonth 2000 2 = 29 ∧ daysInMonth 1900 2 = 28 := by
  have hpred : (dateLe ⟨year, month, 1⟩ d.fecha
      && dateLe d.fecha ⟨year, month, daysInMonth year month⟩) = false := by
    rcases hout with h | h <;> simp [h]
  have hrange : daysInRange (db₁ ++ d :: db₂) ⟨year, month, 1⟩
        ⟨year, month, daysInMonth year month⟩
      = daysInRange (db₁ ++ db₂) ⟨year, month, 1⟩
        ⟨year, month, daysInMonth year month⟩ := by
    simp [daysInRange, List.filter_append, List.filter_cons, hpred]
  refine ⟨?_, ?_, by decide, by decide, by decide, by decide⟩
  · by_cases hv : validYM year month <;> simp [get_month_stats, hv, hrange]
  · intro db hv
    rw [get_month_stats, if_pos hv]
    rfl

/-- Witness for C6: a day dated 2024-04-30 does not affect May 2024. -/
theorem claim_C6_witness :
    dateLe ⟨2024, 5, 1⟩ (⟨2024, 4, 30⟩ : Date) = false ∧
    get_month_stats
        [⟨⟨2024, 4, 30⟩, "", none, none, [⟨"ATENCION", "", 999, "EFECTIVO", none, none⟩]⟩]
        2024 5
      = get_month_stats [] 2024 5 :=
  ⟨by decide,
    (claim_C6_month_scope [] []
      ⟨⟨2024, 4, 30⟩, "", none, none, [⟨"ATENCION", "", 999, "EFECTIVO", none, none⟩]⟩
      2024 5 (Or.inl (by decide))).1⟩

lemma monthStatsOfScope_promedio (scope : List Day) (lo hi : Date) :
    (monthStatsOfScope scope lo hi).promedio_diario
      = (monthStatsOfScope scope lo hi).total_general
        / (monthStatsOfScope scope lo hi).dias_con_mov := by
  show (if (monthStatsOfScope scope lo hi).dias_con_mov ≠ 0
      then (monthStatsOfScope scope lo hi).total_general
            / (monthStatsOfScope scope lo hi).dias_con_mov
      else 0) = _
  by_cases h : (monthStatsOfScope scope lo hi).dias_con_mov = 0 <;> simp [h]

lemma monthStatsOfScope_ticket (scope : List Day) (lo hi : Date) :
    (monthStatsOfScope scope lo hi).ticket_promedio
      = (monthStatsOfScope scope lo hi).total_general
        / (monthStatsOfScope scope lo hi).tx_count := by
  show (if (monthStatsOfScope scope lo hi).tx_count ≠ 0
      then (monthStatsOfScope scope lo hi).total_general
            / (monthStatsOfScope scope lo hi).tx_count
      else 0) = _
  by_cases h : (monthStatsOfScope scope lo hi).tx_count = 0 <;> simp [h]

lemma monthStatsOfScope_ticket_cat (scope : List Day) (lo hi : Date) :
    (monthStatsOfScope scope lo hi).ticket_promedio_cat
      = catKeys.map (fun c =>
          (c, groupSum Entry.categoria c (allEntries scope)
              / groupCount Entry.categoria c (allEntries scope))) := by
  show catKeys.map (fun c =>
      (c, if groupCount Entry.categoria c (allEntries scope) ≠ 0
          then groupSum Entry.categoria c (allEntries scope)
                / groupCount Entry.categoria c (allEntries scope)
          else 0)) = _
  congr 1
  funext c
  by_cases h : groupCount Entry.categoria c (allEntries scope) = 0 <;> simp [h]

/-- C3: every monthly average is a truncating integer division defined
as 0 on a zero denominator — `promedio_diario = total_general /
dias_con_mov`, `ticket_promedio = total_general / tx_count`, and the
per-category ticket divides each category's total by its entry count —
and the spec's example month (entries 1000, 2000, 3000 on two distinct
days) yields `promedio_diario = 3000` and `ticket_promedio = 2000`. -/
theorem claim_C3_truncated_averages :
    (∀ (db : List Day) (year month : Nat), validYM year month = true →
      ∃ st, get_month_stats db year month = some st ∧
        st.promedio_diario = st.total_general / st.dias_con_mov ∧
        st.ticket_promedio = st.total_general / st.tx_count ∧
        st.ticket_promedio_cat = catKeys.map (fun c =>
          (c, groupSum Entry.categoria c
                (allEntries (daysInRange db st.month_start st.month_end)) /
              groupCount Entry.categoria c
                (allEntries (daysInRange db st.month_start st.month_end)))))
    ∧ (∃ st, get_month_stats
          [⟨⟨2024, 5, 10⟩, "", none, none,
              [⟨"ATENCION", "", 1000, "EFECTIVO", some "Ana", some "Rex"⟩,
               ⟨"EXAMEN", "", 2000, "TRANSFERENCIA", none, none⟩]⟩,
           ⟨⟨2024, 5, 11⟩, "", none, none,
              [⟨"ATENCION", "", 3000, "EFECTIVO", none, none⟩]⟩]
          2024 5 = some st ∧
        st.total_general = 6000 ∧ st.tx_count = 3 ∧ st.dias_con_mov = 2 ∧
        st.promedio_diario = 3000 ∧ st.ticket_promedio = 2000) := by
  constructor
  · intro db year month hv
    exact ⟨_, by rw [get_month_stats, if_pos hv],
      monthStatsOfScope_promedio _ _ _,
      monthStatsOfScope_ticket _ _ _,
      monthStatsOfScope_ticket_cat _ _ _⟩
  · exact ⟨_, rfl, by decide, by decide, by decide, by decide, by decide⟩

/-- Witness for the universally quantified part of C3. -/
theorem claim_C3_witness :
    validYM 2024 6 = true ∧
    (∃ st, get_month_stats [] 2024 6 = some st ∧
      st.promedio_diario = st.total_general / st.dias_con_mov ∧
      st.ticket_promedio = st.total_general / st.tx_count ∧
      st.ticket_promedio_cat = catKeys.map (fun c =>
        (c, groupSum Entry.categoria c
              (allEntries (daysInRange [] st.month_start st.month_end)) /
            groupCount Entry.categoria c
              (allEntries (daysInRange [] st.month_start st.month_end))))) :=
  ⟨by decide, claim_C3_truncated_averages.1 [] 2024 6 (by decide)⟩

lemma distinctFirstsAux_congr {α : Type} [DecidableEq α] :
    ∀ (n m : Nat) (l : List α), l.length ≤ n → l.length ≤ m →
      distinctFirstsAux n l = distinctFirstsAux m l := by
  intro n
  induction n with
  | zero =>
    intro m l hn _
    rw [List.length_eq_zero.mp (Nat.le_zero.mp hn)]
    cases m <;> rfl
  | succ n ih =>
    intro m l hn hm
    cases l with
    | nil => cases m <;> rfl
    | cons f rest =>
      cases m with
      | zero => exact absurd hm (by simp)
      | succ m =>
        show f :: distinctFirstsAux n (rest.filter (fun g => g ≠ f))
          = f :: distinctFirstsAux m (rest.filter (fun g => g ≠ f))
        rw [ih m _
          (le_trans (List.length_filter_le _ _) (Nat.le_of_succ_le_succ hn))
          (le_trans (List.length_filter_le _ _) (Nat.le_of_succ_le_succ hm))]

lemma distinctFirsts_nil {α : Type} [DecidableEq α] :
    distinctFirsts ([] : List α) = [] := rfl

lemma distinctFirsts_cons {α : Type} [DecidableEq α] (f : α) (l : List α) :
    distinctFirsts (f :: l) = f :: distinctFirsts (l.filter (fun g => g ≠ f)) := by
  show f :: distinctFirstsAux l.length (l.filter (fun g => g ≠ f)) = _
  rw [distinctFirstsAux_congr l.length (l.filter (fun g => g ≠ f)).length _
    (List.length_filter_le _ _) le_rfl]
  rfl

lemma mem_joinedRows {r : Date × Nat} {l : List Day} (hr : r ∈ joinedRows l) :
    ∃ d ∈ l, r.1 = d.fecha := by
  induction l with
  | nil => simp [joinedRows] at hr
  | cons d rest ih =>
    simp only [joinedRows, List.mem_append] at hr
    rcases hr with h | h
    · obtain ⟨e, _, rfl⟩ := List.mem_map.mp h
      exact ⟨d, by simp, rfl⟩
    · obtain ⟨d', hd', h'⟩ := ih h
      exact ⟨d', by simp [hd'], h'⟩

lemma distinctFirsts_joinedRows {scope : List Day}
    (hnd : scope.Pairwise (fun a b => a.fecha ≠ b.fecha)) :
    distinctFirsts ((joinedRows scope).map Prod.fst)
      = (scope.filter (fun d => ¬ d.entries.isEmpty)).map Day.fecha := by
  induction scope with
  | nil => simp [joinedRows, distinctFirsts_nil]
  | cons d rest ih =>
    rw [List.pairwise_cons] at hnd
    obtain ⟨hd, hrest⟩ := hnd
    have hblock : (d.entries.map (fun e => (d.fecha, e.monto))).map Prod.fst
        = d.entries.map (fun _ => d.fecha) := by
      rw [List.map_map]
      rfl
    show distinctFirsts (((d.entries.map (fun e => (d.fecha, e.monto)))
          ++ joinedRows rest).map Prod.fst) = _
    rw [List.map_append, hblock]
    cases hE : d.entries with
    | nil =>
      have hpred : (¬ d.entries.isEmpty) = False := by simp [hE]
      simp only [List.map_nil, List.nil_append, List.filter_cons, hE]
      rw [ih hrest]
      simp [hE]
    | cons e es =>
      simp only [List.map_cons, List.cons_append]
      rw [distinctFirsts_cons]
      have h1 : (es.map (fun _ => d.fecha)).filter (fun g => g ≠ d.fecha) = [] := by
        rw [List.filter_eq_nil_iff]
        intro a ha
        obtain ⟨_, _, rfl⟩ := List.mem_map.mp ha
        simp
      have h2 : ((joinedRows rest).map Prod.fst).filter (fun g => g ≠ d.fecha)
          = (joinedRows rest).map Prod.fst := by
        rw [List.filter_eq_self]
        intro a ha
        obtain ⟨r, hr, rfl⟩ := List.mem_map.mp ha
        obtain ⟨d', hd', h'⟩ := mem_joinedRows hr
        simp only [ne_eq, decide_eq_true_eq, h']
        exact fun heq => hd d' hd' heq.symm
      rw [List.filter_append, h1, h2, List.nil_append, ih hrest]
      have hpred : (¬ d.entries.isEmpty) = True := by simp [hE]
      simp [List.filter_cons, hE]

lemma joinedRows_filter_fecha {scope : List Day} {d : Day}
    (hnd : scope.Pairwise (fun a b => a.fecha ≠ b.fecha)) (hd : d ∈ scope) :
    (joinedRows scope).filter (fun r => r.1 = d.fecha)
      = d.entries.map (fun e => (d.fecha, e.monto)) := by
  induction scope with
  | nil => simp at hd
  | cons a rest ih =>
    rw [List.pairwise_cons] at hnd
    obtain ⟨ha, hrest⟩ := hnd
    show ((a.entries.map (fun e => (a.fecha, e.monto))) ++ joinedRows rest).filter
        (fun r => r.1 = d.fecha) = _
    rw [List.filter_append]
    rcases List.mem_cons.mp hd with rfl | hd'
    · have h1 : (d.entries.map (fun e => (d.fecha, e.monto))).filter
          (fun r => r.1 = d.fecha) = d.entries.map (fun e => (d.fecha, e.monto)) := by
        rw [List.filter_eq_self]
        intro r hr
        obtain ⟨e, _, rfl⟩ := List.mem_map.mp hr
        simp
      have h2 : (joinedRows rest).filter (fun r => r.1 = d.fecha) = [] := by
        rw [List.filter_eq_nil_iff]
        intro r hr
        obtain ⟨d', hd', h'⟩ := mem_joinedRows hr
        simp only [h', decide_eq_true_eq]
        exact fun heq => ha d' hd' heq.symm
      rw [h1, h2, List.append_nil]
    · have h1 : (a.entries.map (fun e => (a.fecha, e.monto))).filter
          (fun r => r.1 = d.fecha) = [] := by
        rw [List.filter_eq_nil_iff]
        intro r hr
        obtain ⟨e, _, rfl⟩ := List.mem_map.mp hr
        simp only [decide_eq_true_eq]
        exact ha d hd'
      rw [h1, List.nil_append]
      exact ih hrest hd'

/-- C10: the number of days with movement equals the length of the
per-day totals list (each stored date is unique), and a day in scope
with at least one entry — even entries summing to 0 — appears in
`sumas_por_dia` with its (possibly zero) sum and is counted in
`dias_con_mov`. -/
theorem claim_C10_days_with_movement (db : List Day) (year month : Nat)
    (hv : validYM year month = true)
    (hnd : db.Pairwise (fun a b => a.fecha ≠ b.fecha)) :
    ∃ st, get_month_stats db year month = some st ∧
      st.dias_con_mov = st.sumas_por_dia.length ∧
      (∀ d ∈ daysInRange db ⟨year, month, 1⟩ ⟨year, month, daysInMonth year month⟩,
        d.entries ≠ [] → (d.fecha, sumMonto d.entries) ∈ st.sumas_por_dia) := by
  have hscope : (daysInRange db ⟨year, month, 1⟩
      ⟨year, month, daysInMonth year month⟩).Pairwise
        (fun a b => a.fecha ≠ b.fecha) :=
    List.Pairwise.sublist (List.filter_sublist db) hnd
  refine ⟨_, by rw [get_month_stats, if_pos hv], ?_, ?_⟩
  · show ((daysInRange db ⟨year, month, 1⟩ ⟨year, month, daysInMonth year month⟩).filter
        (fun d => ¬ d.entries.isEmpty)).length
      = (sumasPorDia (daysInRange db ⟨year, month, 1⟩
          ⟨year, month, daysInMonth year month⟩)).length
    rw [sumasPorDia, List.length_map, distinctFirsts_joinedRows hscope, List.length_map]
  · intro d hd hne
    show (d.fecha, sumMonto d.entries) ∈ sumasPorDia (daysInRange db ⟨year, month, 1⟩
        ⟨year, month, daysInMonth year month⟩)
    rw [sumasPorDia]
    apply List.mem_map.mpr
    refine ⟨d.fecha, ?_, ?_⟩
    · rw [distinctFirsts_joinedRows hscope]
      exact List.mem_map_of_mem Day.fecha (List.mem_filter.mpr ⟨hd, by simp [hne]⟩)
    · rw [joinedRows_filter_fecha hscope hd, List.map_map]
      rfl

/-- Witness for C10: one day with a single zero-amount entry. -/
theorem claim_C10_witness :
    validYM 2024 5 = true ∧
    ([⟨⟨2024, 5, 3⟩, "", none, none, [⟨"ATENCION", "", 0, "EFECTIVO", none, none⟩]⟩]
        : List Day).Pairwise (fun a b => a.fecha ≠ b.fecha) ∧
    (∃ st, get_month_stats
        [⟨⟨2024, 5, 3⟩, "", none, none, [⟨"ATENCION", "", 0, "EFECTIVO", none, none⟩]⟩]
        2024 5 = some st ∧
      st.dias_con_mov = st.sumas_por_dia.length ∧
      (∀ d ∈ daysInRange
          [⟨⟨2024, 5, 3⟩, "", none, none, [⟨"ATENCION", "", 0, "EFECTIVO", none, none⟩]⟩]
          ⟨2024, 5, 1⟩ ⟨2024, 5, daysInMonth 2024 5⟩,
        d.entries ≠ [] → (d.fecha, sumMonto d.entries) ∈ st.sumas_por_dia)) :=
  ⟨by decide, by simp,
    claim_C10_days_with_movement
      [⟨⟨2024, 5, 3⟩, "", none, none, [⟨"ATENCION", "", 0, "EFECTIVO", none, none⟩]⟩]
      2024 5 (by decide) (by simp)⟩

lemma mem_of_mem_distinctFirstsAux {α : Type} [DecidableEq α] :
    ∀ (n : Nat) (l : List α) (x : α), x ∈ distinctFirstsAux n l → x ∈ l := by
  intro n
  induction n with
  | zero =>
    intro l x hx
    cases l with
    | nil => simp [distinctFirstsAux] at hx
    | cons f rest => simp [distinctFirstsAux] at hx
  | succ n ih =>
    intro l x hx
    cases l with
    | nil => simp [distinctFirstsAux] at hx
    | cons f rest =>
      rcases List.mem_cons.mp hx with rfl | hx'
      · simp
      · exact List.mem_cons_of_mem f (List.mem_of_mem_filter (ih _ x hx'))

lemma distinctFirstsAux_nodup {α : Type} [DecidableEq α] :
    ∀ (n : Nat) (l : List α), (distinctFirstsAux n l).Nodup := by
  intro n
  induction n with
  | zero =>
    intro l
    cases l <;> simp [distinctFirstsAux]
  | succ n ih =>
    intro l
    cases l with
    | nil => simp [distinctFirstsAux]
    | cons f rest =>
      refine List.nodup_cons.mpr ⟨?_, ih _⟩
      intro hf
      have := List.mem_filter.mp (mem_of_mem_distinctFirstsAux n _ f hf)
      simp at this

lemma mem_distinctFirstsAux_of_mem {α : Type} [DecidableEq α] :
    ∀ (n : Nat) (l : List α) (x : α), l.length ≤ n → x ∈ l → x ∈ distinctFirstsAux n l := by
  intro n
  induction n with
  | zero =>
    intro l x hn hx
    rw [List.length_eq_zero.mp (Nat.le_zero.mp hn)] at hx
    simp at hx
  | succ n ih =>
    intro l x hn hx
    cases l with
    | nil => simp at hx
    | cons f rest =>
      rcases List.mem_cons.mp hx with rfl | hx'
      · exact List.mem_cons_self _ _
      · by_cases hxf : x = f
        · exact hxf ▸ List.mem_cons_self _ _
        · refine List.mem_cons_of_mem f (ih _ x ?_ ?_)
          · exact le_trans (List.length_filter_le _ _) (Nat.le_of_succ_le_succ hn)
          · exact List.mem_filter.mpr ⟨hx', by simp [hxf]⟩

lemma mem_of_mem_distinctFirsts {α : Type} [DecidableEq α] {l : List α} {x : α}
    (hx : x ∈ distinctFirsts l) : x ∈ l :=
  mem_of_mem_distinctFirstsAux _ _ _ hx

lemma mem_distinctFirsts_of_mem {α : Type} [DecidableEq α] {l : List α} {x : α}
    (hx : x ∈ l) : x ∈ distinctFirsts l :=
  mem_distinctFirstsAux_of_mem _ _ _ le_rfl hx

lemma distinctFirsts_nodup {α : Type} [DecidableEq α] (l : List α) :
    (distinctFirsts l).Nodup :=
  distinctFirstsAux_nodup _ _

lemma map_congr_mem {α β : Type} {f g : α → β} :
    ∀ {l : List α}, (∀ a ∈ l, f a = g a) → l.map f = l.map g := by
  intro l
  induction l with
  | nil => intro _; rfl
  | cons a rest ih =>
    intro h
    simp [h a (by simp), ih (fun b hb => h b (by simp [hb]))]

lemma sum_map_one {α : Type} (l : List α) : (l.map (fun _ => (1 : Nat))).sum = l.length := by
  induction l with
  | nil => rfl
  | cons a rest ih =>
    simp only [List.map_cons, List.sum_cons, List.length_cons, ih]
    omega

lemma sum_filter_not {α : Type} (l : List α) (p : α → Bool) (w : α → Nat) :
    ((l.filter p).map w).sum + ((l.filter (fun a => !(p a))).map w).sum
      = (l.map w).sum := by
  induction l with
  | nil => rfl
  | cons a rest ih =>
    by_cases h : p a <;> simp [List.filter_cons, h] <;> omega

/-- Splitting a weight sum along a duplicate-free covering key list:
every group-by result sums back to the whole. -/
lemma groupSums_partition {α κ : Type} [DecidableEq κ] (kf : α → κ) (w : α → Nat) :
    ∀ (ks : List κ) (l : List α), ks.Nodup → (∀ a ∈ l, kf a ∈ ks) →
      (ks.map (fun k => ((l.filter (fun a => kf a = k)).map w).sum)).sum
        = (l.map w).sum := by
  intro ks
  induction ks with
  | nil =>
    intro l _ hcov
    cases l with
    | nil => rfl
    | cons a rest => exact absurd (hcov a (by simp)) (List.not_mem_nil _)
  | cons k rest ih =>
    intro l hnd hcov
    rw [List.nodup_cons] at hnd
    rw [List.map_cons, List.sum_cons]
    have hswap : rest.map (fun k' => ((l.filter (fun a => kf a = k')).map w).sum)
        = rest.map (fun k' =>
            (((l.filter (fun a => !(kf a = k))).filter (fun a => kf a = k')).map w).sum) := by
      apply map_congr_mem
      intro k' hk'
      have hkk : k' ≠ k := fun heq => hnd.1 (heq ▸ hk')
      rw [List.filter_filter]
      have hfeq : l.filter (fun a => decide (kf a = k'))
          = l.filter (fun a => decide (kf a = k') && !decide (kf a = k)) := by
        apply List.filter_congr
        intro a _
        by_cases ha : kf a = k'
        · simp [ha, hkk]
        · simp [ha]
      rw [hfeq]
    rw [hswap, ih (l.filter (fun a => !(kf a = k))) hnd.2 ?cov]
    case cov =>
      intro a ha
      obtain ⟨hal, hak⟩ := List.mem_filter.mp ha
      rcases List.mem_cons.mp (hcov a hal) with h | h
      · exact absurd h (by simpa using hak)
      · exact h
    exact sum_filter_not l (fun a => kf a = k) w

/-- C5 (amended): `day_detail` groups the day's entries by the raw
nullable `(tutor, mascota)` pair — `NULL` keys group apart from `""` —
coalescing only the displayed labels; there is exactly one group per
distinct raw pair, the group counts and totals partition the entries,
and the spec's example (two Ana/Rex entries plus one null/null entry)
still yields exactly 2 groups with the null entry labelled `("", "")`. -/
theorem claim_C5_raw_pair_grouping (d : Day) :
    ((patient_groups d).map PatientGroup.total).sum = sumMonto d.entries
    ∧ ((patient_groups d).map PatientGroup.count).sum = d.entries.length
    ∧ (patient_groups d).length
        = (distinctFirsts (d.entries.map (fun e => (e.tutor, e.mascota)))).length
    ∧ patient_groups ⟨⟨2024, 5, 12⟩, "", none, none,
        [⟨"ATENCION", "", 1000, "EFECTIVO", some "Ana", some "Rex"⟩,
         ⟨"EXAMEN", "", 2000, "TRANSFERENCIA", some "Ana", some "Rex"⟩,
         ⟨"PELUQUERIA", "", 3000, "EFECTIVO", none, none⟩]⟩
      = [⟨"Ana", "Rex", 2, 3000⟩, ⟨"", "", 1, 3000⟩] := by
  have hnd := distinctFirsts_nodup (d.entries.map (fun e => (e.tutor, e.mascota)))
  have hcov : ∀ e ∈ d.entries,
      (e.tutor, e.mascota) ∈ distinctFirsts (d.entries.map (fun e => (e.tutor, e.mascota))) :=
    fun e he => mem_distinctFirsts_of_mem (List.mem_map_of_mem _ he)
  refine ⟨?_, ?_, ?_, by decide⟩
  · rw [patient_groups, List.map_map]
    show ((distinctFirsts (d.entries.map (fun e => (e.tutor, e.mascota)))).map
        (fun k => ((d.entries.filter (fun e => (e.tutor, e.mascota) = k)).map
          Entry.monto).sum)).sum = (d.entries.map Entry.monto).sum
    exact groupSums_partition (fun e => (e.tutor, e.mascota)) Entry.monto _ _ hnd hcov
  · rw [patient_groups, List.map_map]
    show ((distinctFirsts (d.entries.map (fun e => (e.tutor, e.mascota)))).map
        (fun k => (d.entries.filter (fun e => (e.tutor, e.mascota) = k)).length)).sum
      = d.entries.length
    have hcnt : (distinctFirsts (d.entries.map (fun e => (e.tutor, e.mascota)))).map
        (fun k => (d.entries.filter (fun e => (e.tutor, e.mascota) = k)).length)
      = (distinctFirsts (d.entries.map (fun e => (e.tutor, e.mascota)))).map
        (fun k => ((d.entries.filter (fun e => (e.tutor, e.mascota) = k)).map
          (fun _ => (1 : Nat))).sum) :=
      map_congr_mem (fun k _ => (sum_map_one _).symm)
    rw [hcnt,
      groupSums_partition (fun e : Entry => (e.tutor, e.mascota)) (fun _ => (1 : Nat))
        _ _ hnd hcov]
    exact sum_map_one d.entries
  · rw [patient_groups, List.length_map]

/-- Counterexample for C5 as stated: a `NULL` pair and an
empty-string pair are grouped separately (the SQL `GROUP BY` uses the
raw columns), so the day below yields two groups — both displayed
`("", "")` — where the claim's normalize-before-grouping rule requires
a single group. -/
theorem claim_C5_counterexample :
    patient_groups ⟨⟨2024, 5, 12⟩, "", none, none,
        [⟨"ATENCION", "", 5, "EFECTIVO", none, none⟩,
         ⟨"EXAMEN", "", 7, "EFECTIVO", some "", some ""⟩]⟩
      = [⟨"", "", 1, 5⟩, ⟨"", "", 1, 7⟩]
    ∧ (patient_groups ⟨⟨2024, 5, 12⟩, "", none, none,
        [⟨"ATENCION", "", 5, "EFECTIVO", none, none⟩,
         ⟨"EXAMEN", "", 7, "EFECTIVO", some "", some ""⟩]⟩).length ≠ 1
    ∧ patient_groups_spec ⟨⟨2024, 5, 12⟩, "", none, none,
        [⟨"ATENCION", "", 5, "EFECTIVO", none, none⟩,
         ⟨"EXAMEN", "", 7, "EFECTIVO", some "", some ""⟩]⟩
      = [⟨"", "", 2, 12⟩]
    ∧ patient_groups ⟨⟨2024, 5, 12⟩, "", none, none,
        [⟨"ATENCION", "", 5, "EFECTIVO", none, none⟩,
         ⟨"EXAMEN", "", 7, "EFECTIVO", some "", some ""⟩]⟩
      ≠ patient_groups_spec ⟨⟨2024, 5, 12⟩, "", none, none,
        [⟨"ATENCION", "", 5, "EFECTIVO", none, none⟩,
         ⟨"EXAMEN", "", 7, "EFECTIVO", some "", some ""⟩]⟩ := by
  refine ⟨by decide, by decide, by decide, by decide⟩

lemma filter_group3 (p : Char → Bool) (sep : Char) (l : List Char) (hsep : p sep = false) :
    (group3 sep l).filter p = l.filter p := by
  induction l using group3.induct sep with
  | case1 a b c d rest ih =>
    simp only [group3, List.filter_cons, hsep]
    by_cases ha : p a <;> by_cases hb : p b <;> by_cases hc : p c <;>
      simp [ha, hb, hc, ih, List.filter_cons]
  | case2 l h =>
    rw [group3.eq_def]
    split
    · exact absurd rfl (h _ _ _ _ _)
    · rfl

lemma map_group3 (f : Char → Char) (sep : Char) (l : List Char)
    (hl : ∀ c ∈ l, f c = c) (hsep : f sep = '.') :
    (group3 sep l).map f = group3 '.' l := by
  induction l using group3.induct sep with
  | case1 a b c d rest ih =>
    have hrest : ∀ c ∈ d :: rest, f c = c := fun c hc => hl c (by simp [List.mem_cons.mp hc])
    simp only [group3, List.map_cons, hsep, hl a (by simp), hl b (by simp), hl c (by simp),
      ih hrest]
  | case2 l h =>
    rw [group3.eq_def, group3.eq_def]
    split
    · exact absurd rfl (h _ _ _ _ _)
    · exact map_eq_self_of hl

lemma natDigitsRev_digits : ∀ n : Nat, ∀ c ∈ natDigitsRev n, ∃ d, d < 10 ∧ c = digitChar d := by
  intro n
  induction n using Nat.strong_induction_on with
  | _ n ih =>
    intro c hc
    rw [natDigitsRev] at hc
    by_cases h : n < 10
    · rw [if_pos h] at hc
      simp only [List.mem_singleton] at hc
      exact ⟨n, h, hc⟩
    · rw [if_neg h] at hc
      rcases List.mem_cons.mp hc with rfl | hc'
      · exact ⟨n % 10, Nat.mod_lt _ (by omega), rfl⟩
      · exact ih (n / 10) (Nat.div_lt_self (by omega) (by omega)) c hc'

lemma digitChar_not_special : ∀ d, d < 10 → digitChar d ≠ ',' ∧ digitChar d ≠ '.' := by
  decide

lemma roundHalfEven_nonneg {q : ℚ} (hq : 0 ≤ q) : 0 ≤ roundHalfEven q := by
  have hf : (0 : ℤ) ≤ ⌊q⌋ := Int.floor_nonneg.mpr hq
  simp only [roundHalfEven]
  split
  · exact hf
  · split
    · omega
    · split <;> omega

lemma roundHalfEven_abs (x : ℚ) : |(roundHalfEven x : ℚ) - x| ≤ 1 / 2 := by
  have h0 : (0 : ℚ) ≤ x - ⌊x⌋ := sub_nonneg.mpr (Int.floor_le x)
  have h1 : x - ⌊x⌋ < 1 := by
    have := Int.lt_floor_add_one x
    linarith
  simp only [roundHalfEven]
  by_cases ha : x - ⌊x⌋ < 1 / 2
  · rw [if_pos ha, abs_le]
    constructor <;> linarith
  · rw [if_neg ha]
    by_cases hb : 1 / 2 < x - ⌊x⌋
    · rw [if_pos hb, abs_le]
      push_cast
      constructor <;> linarith
    · rw [if_neg hb]
      have heq : x - ⌊x⌋ = 1 / 2 := le_antisymm (not_lt.mp hb) (not_lt.mp ha)
      by_cases hc : ⌊x⌋ % 2 = 0
      · rw [if_pos hc, abs_le]
        constructor <;> linarith
      · rw [if_neg hc, abs_le]
        push_cast
        constructor <;> linarith

/-- C9: the currency formatter returns the amount's digits grouped in
threes separated by `.` and prefixed `$ ` with no decimals (grouping
drops no digit); the percentage formatter renders its argument with
exactly one decimal digit (the nearest tenth) and a `%` suffix; and the
money formatting inlined in the paginated PDF renderers agrees with the
`clp` template filter on every amount. -/
theorem claim_C9_formatters :
    (∀ n : Nat, clp n = "$ " ++ dotFormat n)
    ∧ (∀ n : Nat, (dotFormat n).data.filter (fun c => c ≠ '.') = (natDigitsRev n).reverse)
    ∧ (∀ v : Nat, pdf_money v = clp v)
    ∧ (∀ q : ℚ, 0 ≤ q → ∃ a b : Nat, b < 10 ∧
        pct q = toString a ++ "." ++ toString b ++ "%" ∧
        |(10 * (a : ℚ) + (b : ℚ)) - 10 * q| ≤ 1 / 2) := by
  refine ⟨?_, ?_, fun v => rfl, ?_⟩
  · intro n
    have hmap : ((group3 ',' (natDigitsRev n)).map
          (fun c => if c = ',' then '.' else c)) = group3 '.' (natDigitsRev n) := by
      apply map_group3
      · intro c hc
        obtain ⟨d, hd, rfl⟩ := natDigitsRev_digits n c hc
        show (if digitChar d = ',' then '.' else digitChar d) = digitChar d
        rw [if_neg (digitChar_not_special d hd).1]
      · rfl
    show "$ " ++ (⟨((group3 ',' (natDigitsRev n)).reverse).map
        (fun c => if c = ',' then '.' else c)⟩ : String) = _
    rw [List.map_reverse, hmap]
    rfl
  · intro n
    show ((group3 '.' (natDigitsRev n)).reverse).filter (fun c => c ≠ '.') = _
    rw [List.filter_reverse, filter_group3 _ _ _ (by simp)]
    congr 1
    rw [List.filter_eq_self]
    intro c hc
    obtain ⟨d, hd, rfl⟩ := natDigitsRev_digits n c hc
    simp [(digitChar_not_special d hd).2]
  · intro q hq
    have hn0 : 0 ≤ roundHalfEven (10 * q) := roundHalfEven_nonneg (by positivity)
    refine ⟨(roundHalfEven (10 * q)).toNat / 10, (roundHalfEven (10 * q)).toNat % 10,
      Nat.mod_lt _ (by omega), ?_, ?_⟩
    · show (if roundHalfEven (10 * q) < 0 then _ else _) = _
      rw [if_neg (not_lt.mpr hn0)]
    · have hdm : 10 * ((roundHalfEven (10 * q)).toNat / 10)
          + (roundHalfEven (10 * q)).toNat % 10 = (roundHalfEven (10 * q)).toNat :=
        Nat.div_add_mod _ 10
      have h1 : (10 : ℚ) * (((roundHalfEven (10 * q)).toNat / 10 : Nat) : ℚ)
          + (((roundHalfEven (10 * q)).toNat % 10 : Nat) : ℚ)
          = (((roundHalfEven (10 * q)).toNat : Nat) : ℚ) := by
        exact_mod_cast hdm
      have h2 : (((roundHalfEven (10 * q)).toNat : Nat) : ℚ)
          = ((roundHalfEven (10 * q) : ℤ) : ℚ) := by
        exact_mod_cast Int.toNat_of_nonneg hn0
      rw [h1, h2]
      exact roundHalfEven_abs (10 * q)

/-- Witness for the percentage half of C9 at the value one half. -/
theorem claim_C9_witness :
    (0 : ℚ) ≤ 1 / 2 ∧
    (∃ a b : Nat, b < 10 ∧ pct (1 / 2) = toString a ++ "." ++ toString b ++ "%" ∧
      |(10 * (a : ℚ) + (b : ℚ)) - 10 * (1 / 2)| ≤ 1 / 2) :=
  ⟨by norm_num, claim_C9_formatters.2.2.2 (1 / 2) (by norm_num)⟩

end VetCash
